import Mathlib

/-!
Verification of the sample synthesis & augmentation pipeline of
`src/data_prepare.py` (a labeled-audio dataset generator for pitch
detection).  The Python source is shallowly embedded: pure computations
become Lean functions, fallible lookups and parses become `Option`,
real-valued float formulas are stated over `ℝ`, and the randomized draw
of pitch-shift offsets is passed in as an explicit list parameter.
-/

namespace Note

/-- The character class `[ABCDEFGabcdefg]` of the regular expression
`^([ABCDEFGabcdefg])([b#s]?)([0-9])$` in `Note.note`. -/
def noteLetters : List Char :=
  ['A', 'B', 'C', 'D', 'E', 'F', 'G', 'a', 'b', 'c', 'd', 'e', 'f', 'g']

/-- The character class `[b#s]` (the optional accidental group of the regex). -/
def accidentalChars : List Char := ['b', '#', 's']

/-- Embeds the `Note.values` dict of the source: semitone offsets of the
lowercased letter names.  A key that is absent yields `none` (a Python
`KeyError`). -/
def values (c : Char) : Option ℤ :=
  if c = 'c' then some 0
  else if c = 'd' then some 2
  else if c = 'e' then some 4
  else if c = 'f' then some 5
  else if c = 'g' then some 7
  else if c = 'a' then some 9
  else if c = 'b' then some 11
  else none

/-- The `Note.names` table of the source: the 12 pitch-class names of one
octave, spelled with sharps only. -/
def names : List String :=
  ["C", "Cs", "D", "Ds", "E", "F", "Fs", "G", "Gs", "A", "As", "B"]

/-- Embeds the regex match
`re.match('^([ABCDEFGabcdefg])([b#s]?)([0-9])$', str)` of `Note.note`:
on success, the captured letter, optional accidental, and the octave
digit's numeric value; on failure `none` (in Python, `matches` is `None`
and the subsequent `.group` access raises).  Python's `$` anchor matches
at the end of the string or just before one final newline, so a match
consumes either the whole string (lengths 2 and 3) or all but a single
trailing `'\n'` (lengths 3 and 4). -/
def regexMatch (s : String) : Option (Char × Option Char × ℕ) :=
  match s.data with
  | [l, d] =>
      if l ∈ noteLetters ∧ d.isDigit then some (l, none, d.toNat - 48) else none
  | [l, a, d] =>
      if l ∈ noteLetters ∧ a ∈ accidentalChars ∧ d.isDigit then
        some (l, some a, d.toNat - 48)
      else if l ∈ noteLetters ∧ a.isDigit ∧ d = '\n' then
        some (l, none, a.toNat - 48)
      else none
  | [l, a, d, nl] =>
      if l ∈ noteLetters ∧ a ∈ accidentalChars ∧ d.isDigit ∧ nl = '\n' then
        some (l, some a, d.toNat - 48)
      else none
  | _ => none

/-- The accidental shift of `Note.note`: `b` lowers by one semitone, `#`
and `s` raise by one, no accidental leaves the pitch unchanged. -/
def accShift : Option Char → ℤ
  | some a => if a = 'b' then -1 else if a = '#' then 1 else if a = 's' then 1 else 0
  | none => 0

/-- Embeds `Note.note`: parse the string with the regex, lowercase the
letter, look up its semitone value, and return
`(octave + 1) * 12 + value + shift`.  `none` models the exception raised
on a failed match (and a failed dict lookup, which the regex makes
unreachable). -/
def note (s : String) : Option ℤ :=
  match regexMatch s with
  | none => none
  | some (l, acc, octave) =>
      (values l.toLower).map (fun v => ((octave : ℤ) + 1) * 12 + v + accShift acc)

end Note

namespace Sample

/-- Embeds the `note_map` dict built in `Sample.note_to_freq` by
enumerating `Note.names`: the first index at which the name occurs, or a
`KeyError` (`none`) when it does not occur.  (The names are distinct, so
first occurrence is exact.) -/
def note_map_aux : List String → ℕ → String → Option ℕ
  | [], _, _ => none
  | n :: rest, i, q => if q = n then some i else note_map_aux rest (i + 1) q

/-- The `note_map` lookup of `Sample.note_to_freq`. -/
def note_map (q : String) : Option ℕ := note_map_aux Note.names 0 q

/-- Embeds the key-index computation of `Sample.note_to_freq`:
`key = note_map[note] + ((octave - 1) * 12) + 1`.  The returned frequency
of the source is `440 * 2 ^ ((key - 46) / 12)` Hz; theorems below state
that real-valued formula inline over this integer key. -/
def note_to_freq_key (note : String) (octave : ℤ) : Option ℤ :=
  (note_map note).map (fun i : ℕ => (i : ℤ) + (octave - 1) * 12 + 1)

end Sample

namespace Note

/-- The shape `<letter><accidental?><digit>` of a valid note string, as
the spec describes it (§4.1): a letter A–G in either case, an optional
accidental among `b`, `#`, `s`, and a single decimal octave digit. -/
def noteShape (s : String) : Bool :=
  match s.data with
  | [l, d] => decide (l ∈ noteLetters ∧ d.isDigit = true)
  | [l, a, d] => decide (l ∈ noteLetters ∧ a ∈ accidentalChars ∧ d.isDigit = true)
  | _ => false

/-- A valid note shape followed by one trailing newline — the extra
strings Python's `$` anchor lets `re.match` accept beyond `noteShape`. -/
def noteShapeNewline (s : String) : Bool :=
  match s.data with
  | [l, d, nl] => decide (l ∈ noteLetters ∧ d.isDigit = true ∧ nl = '\n')
  | [l, a, d, nl] =>
      decide (l ∈ noteLetters ∧ a ∈ accidentalChars ∧ d.isDigit = true ∧ nl = '\n')
  | _ => false

/-- The spec's fixed C-major semitone-offset table
`{C:0, D:2, E:4, F:5, G:7, A:9, B:11}`, case-insensitive (§3). -/
def specOffset (c : Char) : ℤ :=
  if c = 'C' ∨ c = 'c' then 0
  else if c = 'D' ∨ c = 'd' then 2
  else if c = 'E' ∨ c = 'e' then 4
  else if c = 'F' ∨ c = 'f' then 5
  else if c = 'G' ∨ c = 'g' then 7
  else if c = 'A' ∨ c = 'a' then 9
  else if c = 'B' ∨ c = 'b' then 11
  else 0

/-- The spec's accidental shift: −1 for a flat, +1 for a sharp written
`#` or `s`, 0 otherwise (§3). -/
def specAccShift : Option Char → ℤ
  | some 'b' => -1
  | some '#' => 1
  | some 's' => 1
  | _ => 0

/-- The spec's pitch formula (§3), stated over the decomposed fields of
a valid note string: `(octave + 1) * 12 + offset(letter) + shift(accidental)`. -/
def specResolve (s : String) : Option ℤ :=
  match s.data with
  | [l, d] =>
      if l ∈ noteLetters ∧ d.isDigit then
        some ((((d.toNat - 48 : ℕ) : ℤ) + 1) * 12 + specOffset l + specAccShift none)
      else none
  | [l, a, d] =>
      if l ∈ noteLetters ∧ a ∈ accidentalChars ∧ d.isDigit then
        some ((((d.toNat - 48 : ℕ) : ℤ) + 1) * 12 + specOffset l + specAccShift (some a))
      else none
  | _ => none

theorem values_toLower_eq_specOffset (l : Char) (h : l ∈ noteLetters) :
    values l.toLower = some (specOffset l) := by
  fin_cases h <;> rfl

theorem accShift_eq_specAccShift (a : Char) (h : a ∈ accidentalChars) :
    accShift (some a) = specAccShift (some a) := by
  fin_cases h <;> rfl

end Note

/-- C3.  On every string of the valid shape, `Note.note` returns exactly
the spec's integer `(octave+1)·12 + offset(letter) + accidental shift`,
with the C-major offset table and ∓1 accidental shifts. -/
theorem note_resolves_spec_formula (s : String) (h : Note.noteShape s = true) :
    ∃ v : ℤ, Note.note s = some v ∧ Note.specResolve s = some v := by
  obtain ⟨data⟩ := s
  match data with
  | [l, d] =>
      have hp : l ∈ Note.noteLetters ∧ d.isDigit = true := by
        simpa [Note.noteShape] using h
      refine ⟨(((d.toNat - 48 : ℕ) : ℤ) + 1) * 12 + Note.specOffset l +
        Note.specAccShift none, ?_, ?_⟩
      · simp only [Note.note, Note.regexMatch]
        rw [if_pos hp]
        simp [Note.values_toLower_eq_specOffset l hp.1, Note.accShift, Note.specAccShift]
      · simp only [Note.specResolve]
        rw [if_pos hp]
  | [l, a, d] =>
      have hp : l ∈ Note.noteLetters ∧ a ∈ Note.accidentalChars ∧ d.isDigit = true := by
        simpa [Note.noteShape] using h
      refine ⟨(((d.toNat - 48 : ℕ) : ℤ) + 1) * 12 + Note.specOffset l +
        Note.specAccShift (some a), ?_, ?_⟩
      · simp only [Note.note, Note.regexMatch]
        rw [if_pos hp]
        simp [Note.values_toLower_eq_specOffset l hp.1,
          Note.accShift_eq_specAccShift a hp.2.1]
      · simp only [Note.specResolve]
        rw [if_pos hp]
  | [] => simp [Note.noteShape] at h
  | [_] => simp [Note.noteShape] at h
  | _ :: _ :: _ :: _ :: _ => simp [Note.noteShape] at h

/-- C3 witness: the spec's four sample resolutions, obtained from the
theorem at concrete inputs. -/
theorem note_resolves_spec_formula_check :
    Note.note "C4" = some 60 ∧ Note.note "A4" = some 69 ∧
    Note.note "Cs4" = some 61 ∧ Note.note "Bb3" = some 58 := by
  obtain ⟨v, hv, hs⟩ := note_resolves_spec_formula "Bb3" (by decide)
  have h58 : Note.specResolve "Bb3" = some 58 := by decide
  have hv58 : v = 58 := Option.some.inj (hs.symm.trans h58)
  subst hv58
  exact ⟨by decide, by decide, by decide, hv⟩

/-- C5 (amended).  Every string that matches neither
`<letter><accidental?><digit>` nor that shape followed by a single
trailing newline (which Python's `$` anchor accepts) makes `Note.note`
fail (the regex does not match and the Python code raises), never
returning a pitch number; the embedding is a pure function, so there
are no side effects. -/
theorem note_rejects_malformed (s : String)
    (h1 : Note.noteShape s = false) (h2 : Note.noteShapeNewline s = false) :
    Note.note s = none := by
  obtain ⟨data⟩ := s
  match data with
  | [l, d] =>
      have hp : ¬(l ∈ Note.noteLetters ∧ d.isDigit = true) := by
        simpa [Note.noteShape] using h1
      simp only [Note.note, Note.regexMatch]
      rw [if_neg hp]
  | [l, a, d] =>
      have hp : ¬(l ∈ Note.noteLetters ∧ a ∈ Note.accidentalChars ∧ d.isDigit = true) := by
        simpa [Note.noteShape] using h1
      have hq : ¬(l ∈ Note.noteLetters ∧ a.isDigit = true ∧ d = '\n') := by
        simpa [Note.noteShapeNewline] using h2
      simp only [Note.note, Note.regexMatch]
      rw [if_neg hp, if_neg hq]
  | [l, a, d, nl] =>
      have hq : ¬(l ∈ Note.noteLetters ∧ a ∈ Note.accidentalChars ∧
          d.isDigit = true ∧ nl = '\n') := by
        simpa [Note.noteShapeNewline] using h2
      simp only [Note.note, Note.regexMatch]
      rw [if_neg hq]
  | [] => rfl
  | [_] => rfl
  | _ :: _ :: _ :: _ :: _ :: _ => rfl

/-- C5 counterexample.  "C4\n" does not match the shape
`<letter><accidental?><digit>`, yet the source's `re.match` succeeds —
Python's `$` matches just before one final newline — and `Note.note`
returns the pitch 60 instead of failing. -/
theorem note_rejects_malformed_counterexample :
    Note.noteShape "C4\n" = false ∧ Note.note "C4\n" = some 60 := by decide

/-- Embeds the cents computation of `Sample.transform_wav`: 0 when the
pitch shift is 0, else `1200.0 * math.log((freq + shift) / freq, 2)`
(Python's two-argument log is `log x / log 2`). -/
noncomputable def Sample.shift_cents (freq pitch_shift_hz : ℝ) : ℝ :=
  if pitch_shift_hz = 0 then 0
  else 1200 * (Real.log ((freq + pitch_shift_hz) / freq) / Real.log 2)

/-- C6.  For every positive base frequency, the cents value handed to the
transform tool is `1200·log2((f+Δ)/f)` — for every offset, the Δ=0 branch
included, since `log2(f/f) = 0` — and is exactly 0 (not a computed
logarithm) when Δ=0. -/
theorem shift_cents_spec (f Δ : ℝ) (hf : 0 < f) :
    Sample.shift_cents f Δ = 1200 * Real.logb 2 ((f + Δ) / f) ∧
    Sample.shift_cents f 0 = 0 := by
  constructor
  · by_cases hΔ : Δ = 0
    · subst hΔ
      rw [Sample.shift_cents, if_pos rfl, add_zero, div_self (ne_of_gt hf), Real.logb_one]
      norm_num
    · rw [Sample.shift_cents, if_neg hΔ, Real.logb]
  · rw [Sample.shift_cents, if_pos rfl]

/-- C6 witness: at base frequency 440 Hz the zero offset yields exactly
0 cents. -/
theorem shift_cents_spec_witness : Sample.shift_cents 440 0 = 0 :=
  (shift_cents_spec 440 0 (by norm_num)).2

/-- Equal 12-TET exponents give equal frequencies: the pitch-referenced
formula `440·2^((m−69)/12)` and the key-referenced formula
`440·2^((k−46)/12)` agree whenever `m − 69 = k − 46`. -/
theorem tet_freq_eq_of_exp_eq (m k : ℤ) (h : m - 69 = k - 46) :
    (440 : ℝ) * 2 ^ (((m : ℝ) - 69) / 12) = (440 : ℝ) * 2 ^ (((k : ℝ) - 46) / 12) := by
  have hr : (m : ℝ) - 69 = (k : ℝ) - 46 := by exact_mod_cast h
  rw [hr]

/-- C2 (amended).  For every note string built from one of the 12
canonical sharp-spelled pitch-class names of `Note.names` and an octave
digit — the strings the program itself forms — the frequency derived from
the resolved MIDI pitch, `440·2^((midi−69)/12)`, equals the frequency
`440·2^((key−46)/12)` that `Sample.note_to_freq` computes from the name
and octave, exactly (so in particular within 1e-6 relative error). -/
theorem note_freq_cross_check (name : String) (oct : ℕ)
    (h1 : name ∈ Note.names) (h2 : oct ≤ 9) :
    ∃ m k : ℤ,
      Note.note (name ++ String.mk [Char.ofNat (48 + oct)]) = some m ∧
      Sample.note_to_freq_key name (oct : ℤ) = some k ∧
      (440 : ℝ) * 2 ^ (((m : ℝ) - 69) / 12) = (440 : ℝ) * 2 ^ (((k : ℝ) - 46) / 12) := by
  fin_cases h1 <;> interval_cases oct <;>
    exact ⟨_, _, rfl, rfl, tet_freq_eq_of_exp_eq _ _ (by decide)⟩

/-- C2 witness: the cross-check at the concrete input A4. -/
theorem note_freq_cross_check_witness :
    ∃ m k : ℤ,
      Note.note ("A" ++ String.mk [Char.ofNat (48 + 4)]) = some m ∧
      Sample.note_to_freq_key "A" ((4 : ℕ) : ℤ) = some k ∧
      (440 : ℝ) * 2 ^ (((m : ℝ) - 69) / 12) = (440 : ℝ) * 2 ^ (((k : ℝ) - 46) / 12) :=
  note_freq_cross_check "A" 4 (by decide) (by decide)

/-- C2 counterexample.  "Bb3" is a valid note string and resolves to MIDI
pitch 58, but `Sample.note_to_freq` is undefined on its pitch-class
spelling "Bb" (a `KeyError`), and likewise on a lowercase letter such as
in "a4"; under the bare-letter reading, `note_to_freq("B", 3)` yields key
36, whose frequency differs from `440·2^((58−69)/12)` by a full semitone
(≈5.9%), far beyond 1e-6 relative error.  So the cross-check fails on
valid note strings outside the canonical sharp spellings. -/
theorem note_freq_cross_check_counterexample :
    Note.note "Bb3" = some 58 ∧
    Sample.note_to_freq_key "Bb" 3 = none ∧
    Note.note "a4" = some 69 ∧
    Sample.note_to_freq_key "a" 4 = none ∧
    Sample.note_to_freq_key "B" 3 = some 36 ∧
    (440 : ℝ) * 2 ^ (((58 : ℝ) - 69) / 12) ≠ (440 : ℝ) * 2 ^ (((36 : ℝ) - 46) / 12) := by
  refine ⟨by decide, by decide, by decide, by decide, by decide, ?_⟩
  have hlt : ((58 : ℝ) - 69) / 12 < ((36 : ℝ) - 46) / 12 := by norm_num
  have hpow := (Real.rpow_lt_rpow_left_iff (x := 2) one_lt_two).mpr hlt
  exact ne_of_lt (mul_lt_mul_of_pos_left hpow (by norm_num))

/-- The spec's 1-based position of each canonical pitch-class name within
the 12-name-per-octave table (§3). -/
def pitchClassIndex1 (name : String) : ℤ :=
  if name = "C" then 1
  else if name = "Cs" then 2
  else if name = "D" then 3
  else if name = "Ds" then 4
  else if name = "E" then 5
  else if name = "F" then 6
  else if name = "Fs" then 7
  else if name = "G" then 8
  else if name = "Gs" then 9
  else if name = "A" then 10
  else if name = "As" then 11
  else if name = "B" then 12
  else 0

/-- C4.  On every canonical sharp-spelled pitch-class name and octave,
`Sample.note_to_freq` computes the key index `1-based position +
12·(octave−1)` and returns `440·2^((key−46)/12)` Hz; at the key indices
of A4, A5 and A3 (46, 58, 34) that formula gives exactly 440, 880 and
220 Hz. -/
theorem note_to_freq_key_spec (name : String) (oct : ℤ) (h : name ∈ Note.names) :
    Sample.note_to_freq_key name oct = some (pitchClassIndex1 name + 12 * (oct - 1)) ∧
    (440 : ℝ) * 2 ^ (((46 : ℝ) - 46) / 12) = 440 ∧
    (440 : ℝ) * 2 ^ (((58 : ℝ) - 46) / 12) = 880 ∧
    (440 : ℝ) * 2 ^ (((34 : ℝ) - 46) / 12) = 220 := by
  refine ⟨?_, ?_, ?_, ?_⟩
  · fin_cases h <;>
      · simp [Sample.note_to_freq_key, Sample.note_map, Sample.note_map_aux, pitchClassIndex1]
        ring
  · rw [show ((46 : ℝ) - 46) / 12 = 0 by norm_num, Real.rpow_zero]; norm_num
  · rw [show ((58 : ℝ) - 46) / 12 = 1 by norm_num, Real.rpow_one]; norm_num
  · rw [show ((34 : ℝ) - 46) / 12 = -1 by norm_num, Real.rpow_neg_one]; norm_num

/-- C4 witness: the formula at the concrete inputs (A,4), (A,5), (A,3)
gives key indices 46, 58 and 34, hence 440, 880 and 220 Hz. -/
theorem note_to_freq_key_spec_witness :
    Sample.note_to_freq_key "A" 4 = some 46 ∧
    Sample.note_to_freq_key "A" 5 = some 58 ∧
    Sample.note_to_freq_key "A" 3 = some 34 ∧
    (440 : ℝ) * 2 ^ (((46 : ℝ) - 46) / 12) = 440 ∧
    (440 : ℝ) * 2 ^ (((58 : ℝ) - 46) / 12) = 880 ∧
    (440 : ℝ) * 2 ^ (((34 : ℝ) - 46) / 12) = 220 := by
  have h4 := note_to_freq_key_spec "A" 4 (by decide)
  exact ⟨by rw [h4.1]; decide, by decide, by decide, h4.2.1, h4.2.2.1, h4.2.2.2⟩

theorem note_map_aux_isSome_iff (l : List String) (i : ℕ) (q : String) :
    (Sample.note_map_aux l i q).isSome = true ↔ q ∈ l := by
  induction l generalizing i with
  | nil => simp [Sample.note_map_aux]
  | cons n rest ih =>
      by_cases hq : q = n
      · simp [Sample.note_map_aux, hq]
      · simp [Sample.note_map_aux, hq, ih (i + 1)]

/-- C10.  `Sample.note_to_freq` succeeds exactly on the 12 canonical
sharp-only pitch-class names: the lookup fails (`KeyError`) on every
other spelling — including the flat spelling "Bb" and the lowercase "a"
that `Note.note` happily resolves — and within the 12-name domain every
call returns a key (hence a frequency). -/
theorem note_to_freq_domain :
    (∀ name : String, ∀ oct : ℤ,
      (Sample.note_to_freq_key name oct).isSome = true ↔ name ∈ Note.names) ∧
    Sample.note_to_freq_key "Bb" 3 = none ∧
    Sample.note_to_freq_key "a" 4 = none ∧
    Note.note "Bb3" = some 58 ∧
    Note.note "a4" = some 69 := by
  refine ⟨?_, by decide, by decide, by decide, by decide⟩
  intro name oct
  rw [Sample.note_to_freq_key, Option.isSome_map']
  exact note_map_aux_isSome_iff _ _ _

/-- C5 witness: an unrecognized letter, a malformed (uppercase) accidental,
a multi-digit octave, a wrong field order, a missing octave, and a valid
shape followed by two newlines (one more than `$` tolerates) all fail. -/
theorem note_rejects_malformed_check :
    Note.note "H4" = none ∧ Note.note "CB4" = none ∧ Note.note "C44" = none ∧
    Note.note "4C" = none ∧ Note.note "Cb" = none ∧ Note.note "C4\n\n" = none := by
  exact ⟨note_rejects_malformed "H4" (by decide) (by decide),
    note_rejects_malformed "CB4" (by decide) (by decide),
    note_rejects_malformed "C44" (by decide) (by decide),
    note_rejects_malformed "4C" (by decide) (by decide),
    note_rejects_malformed "Cb" (by decide) (by decide),
    note_rejects_malformed "C4\n\n" (by decide) (by decide)⟩

/-- Decimal digit characters of a natural number, most significant first —
the rendering Python's `str` applies to the integer pitch-shift amounts
when they are spliced into the output filename.  Fuel-structured like
core's `Nat.toDigitsCore` so that it reduces. -/
def natDigitsCore : ℕ → ℕ → List Char → List Char
  | 0, _, acc => acc
  | fuel + 1, n, acc =>
      if n < 10 then Char.ofNat (48 + n) :: acc
      else natDigitsCore fuel (n / 10) (Char.ofNat (48 + n % 10) :: acc)

/-- The digits of `n`, most significant first. -/
def natDigits (n : ℕ) : List Char := natDigitsCore (n + 1) n []

/-- `str` of a nonnegative integer. -/
def natStr (n : ℕ) : String := String.mk (natDigits n)

/-- A clean-equation companion of `natDigitsCore`, used only in proofs. -/
def natDigitsRec (n : ℕ) : List Char :=
  if n < 10 then [Char.ofNat (48 + n)]
  else natDigitsRec (n / 10) ++ [Char.ofNat (48 + n % 10)]
  decreasing_by exact Nat.div_lt_self (by omega) (by norm_num)

theorem digitChar_toNat (d : ℕ) (h : d < 10) : (Char.ofNat (48 + d)).toNat = 48 + d := by
  interval_cases d <;> decide

theorem natDigitsCore_eq_rec (fuel : ℕ) : ∀ n acc, n < fuel →
    natDigitsCore fuel n acc = natDigitsRec n ++ acc := by
  induction fuel with
  | zero => omega
  | succ fuel ih =>
      intro n acc h
      by_cases hn : n < 10
      · rw [natDigitsCore, if_pos hn, natDigitsRec, if_pos hn]
        rfl
      · have hd : n / 10 < n := Nat.div_lt_self (by omega) (by norm_num)
        rw [natDigitsCore, if_neg hn, ih (n / 10) _ (by omega)]
        conv_rhs => rw [natDigitsRec, if_neg hn]
        simp

theorem natDigits_eq_rec (n : ℕ) : natDigits n = natDigitsRec n := by
  rw [natDigits, natDigitsCore_eq_rec (n + 1) n [] (by omega), List.append_nil]

/-- The numeric value a decimal digit string denotes. -/
def digitsVal (l : List Char) : ℕ := l.foldl (fun a c => a * 10 + (c.toNat - 48)) 0

theorem digitsVal_natDigitsRec (n : ℕ) : digitsVal (natDigitsRec n) = n := by
  induction n using Nat.strong_induction_on with
  | _ n ih =>
    by_cases h : n < 10
    · rw [natDigitsRec, if_pos h]
      simp [digitsVal, digitChar_toNat n h]
    · have hd : n / 10 < n := Nat.div_lt_self (by omega) (by norm_num)
      have hr : n % 10 < 10 := Nat.mod_lt _ (by norm_num)
      rw [natDigitsRec, if_neg h, digitsVal, List.foldl_append]
      have hv : List.foldl (fun a c => a * 10 + (c.toNat - 48)) 0 (natDigitsRec (n / 10)) = n / 10 :=
        ih (n / 10) hd
      simp only [List.foldl, hv, digitChar_toNat _ hr]
      omega

theorem natDigits_inj (a b : ℕ) (h : natDigits a = natDigits b) : a = b := by
  rw [natDigits_eq_rec, natDigits_eq_rec] at h
  have := congrArg digitsVal h
  rwa [digitsVal_natDigitsRec, digitsVal_natDigitsRec] at this

theorem natDigitsRec_digits (n : ℕ) : ∀ c ∈ natDigitsRec n, 48 ≤ c.toNat ∧ c.toNat ≤ 57 := by
  induction n using Nat.strong_induction_on with
  | _ n ih =>
    intro c hc
    by_cases h : n < 10
    · rw [natDigitsRec, if_pos h] at hc
      simp only [List.mem_singleton] at hc
      subst hc
      rw [digitChar_toNat n h]
      omega
    · have hd : n / 10 < n := Nat.div_lt_self (by omega) (by norm_num)
      have hr : n % 10 < 10 := Nat.mod_lt _ (by norm_num)
      rw [natDigitsRec, if_neg h] at hc
      rcases List.mem_append.mp hc with hc | hc
      · exact ih (n / 10) hd c hc
      · simp only [List.mem_singleton] at hc
        subst hc
        rw [digitChar_toNat _ hr]
        omega

theorem natDigits_no_dash (n : ℕ) : ∀ c ∈ natDigits n, c ≠ '-' := by
  rw [natDigits_eq_rec]
  intro c hc hdash
  have := natDigitsRec_digits n c hc
  rw [hdash] at this
  simp at this

/-- Embeds the output filename construction of `Sample.transform_wav`:
`name + "-" + "%.3f" % new_freq + "-" + "S" + str(pitch_shift_hz) + "-"
+ suffix + ".wav"`.  The `%.3f`-formatted resulting frequency is passed
in as text (float formatting itself lies outside this integer/string
model; for the program's positive frequencies it never contains `-`). -/
def Sample.wav_file (name freqText : String) (pitch_shift_hz : ℕ) (suffix : String) : String :=
  name ++ "-" ++ freqText ++ "-" ++ "S" ++ natStr pitch_shift_hz ++ "-" ++ suffix ++ ".wav"

/-- Splitting at the first `-` separator: two dash-free fields followed by
`-`-separated remainders are equal iff field and remainder agree. -/
theorem eq_of_append_dash_append {a₁ a₂ b₁ b₂ : List Char}
    (h₁ : ∀ c ∈ a₁, c ≠ '-') (h₂ : ∀ c ∈ a₂, c ≠ '-')
    (h : a₁ ++ '-' :: b₁ = a₂ ++ '-' :: b₂) : a₁ = a₂ ∧ b₁ = b₂ := by
  induction a₁ generalizing a₂ with
  | nil =>
      cases a₂ with
      | nil => simpa using h
      | cons y ys =>
          simp only [List.nil_append, List.cons_append, List.cons.injEq] at h
          exact absurd h.1.symm (h₂ y (by simp))
  | cons x xs ih =>
      cases a₂ with
      | nil =>
          simp only [List.nil_append, List.cons_append, List.cons.injEq] at h
          exact absurd h.1 (h₁ x (by simp))
      | cons y ys =>
          simp only [List.cons_append, List.cons.injEq] at h
          obtain ⟨he, hb⟩ := ih (fun c hc => h₁ c (List.mem_cons_of_mem _ hc))
            (fun c hc => h₂ c (List.mem_cons_of_mem _ hc)) h.2
          exact ⟨by rw [h.1, he], hb⟩

theorem wav_file_data (name freqText : String) (s : ℕ) (suffix : String) :
    (Sample.wav_file name freqText s suffix).data =
      name.data ++ '-' :: (freqText.data ++ '-' :: 'S' ::
        (natDigits s ++ '-' :: (suffix.data ++ ['.', 'w', 'a', 'v']))) := by
  simp [Sample.wav_file, natStr, String.data_append, List.append_assoc]

/-- C7.  The output filename is the pure function
`<job-name>-<frequency text>-S<shift>-<segment-label>.wav` of the job
name, the `%.3f` resulting-frequency text (a function of the shift, with
no `-` in it), the shift amount and the segment label; for a fixed job
it is injective in the (shift, segment) pair, so all filenames of a
job's (shift, segment) combinations are pairwise distinct. -/
theorem wav_file_injective (name : String) (freqText : ℕ → String)
    (hfreq : ∀ s : ℕ, ∀ c ∈ (freqText s).data, c ≠ '-')
    (s₁ s₂ : ℕ) (g₁ g₂ : String)
    (heq : Sample.wav_file name (freqText s₁) s₁ g₁ =
      Sample.wav_file name (freqText s₂) s₂ g₂) :
    s₁ = s₂ ∧ g₁ = g₂ := by
  have hd := congrArg String.data heq
  rw [wav_file_data, wav_file_data] at hd
  have h1 := List.append_cancel_left hd
  have h2 := List.cons.inj h1
  obtain ⟨-, h3⟩ := eq_of_append_dash_append (hfreq s₁) (hfreq s₂) h2.2
  have h4 := List.cons.inj h3
  obtain ⟨h5, h6⟩ := eq_of_append_dash_append
    (fun c hc => natDigits_no_dash s₁ c hc) (fun c hc => natDigits_no_dash s₂ c hc) h4.2
  refine ⟨natDigits_inj _ _ h5, ?_⟩
  exact String.ext (List.append_cancel_right h6)

/-- C7 witness: the concrete filename format at shift 0 / attack, and two
concrete distinctness consequences obtained from the theorem. -/
theorem wav_file_injective_check :
    Sample.wav_file "data/note-A4-P0" "440.000" 0 "attack" =
      "data/note-A4-P0-440.000-S0-attack.wav" ∧
    Sample.wav_file "data/note-A4-P0" "440.000" 0 "attack" ≠
      Sample.wav_file "data/note-A4-P0" "440.000" 10 "attack" ∧
    Sample.wav_file "data/note-A4-P0" "440.000" 0 "attack" ≠
      Sample.wav_file "data/note-A4-P0" "440.000" 0 "sustain" := by
  refine ⟨by decide, fun heq => ?_, fun heq => ?_⟩
  · have h := wav_file_injective "data/note-A4-P0" (fun _ => "440.000")
      (fun s c hc => by fin_cases hc <;> decide) 0 10 "attack" "attack" heq
    exact absurd h.1 (by decide)
  · have h := wav_file_injective "data/note-A4-P0" (fun _ => "440.000")
      (fun s c hc => by fin_cases hc <;> decide) 0 0 "attack" "sustain" heq
    exact absurd h.2 (by decide)

/-- A trim window of the augmentation phase: the segment label together
with the `trim` start offset and duration (seconds) that
`Sample.transform_wav` passes to the external transform tool. -/
structure Segment where
  label : String
  start : ℚ
  duration : ℚ
deriving DecidableEq

/-- The attack call of `main`: default start 0, duration 0.33. -/
def attackSegment : Segment := ⟨"attack", 0, 33/100⟩

/-- The sustain call of `main`: start 0.33, duration 0.33. -/
def sustainSegment : Segment := ⟨"sustain", 33/100, 33/100⟩

/-- The decay call of `main`: start 0.66, duration 0.33. -/
def decaySegment : Segment := ⟨"decay", 66/100, 33/100⟩

/-- The three segment windows, in the order `main` issues them per offset. -/
def segments : List Segment := [attackSegment, sustainSegment, decaySegment]

/-- The half-open span of audio a trim window captures. -/
def Segment.window (g : Segment) : Set ℚ := Set.Ico g.start (g.start + g.duration)

/-- The closed span of a trim window, endpoints included. -/
def Segment.windowClosed (g : Segment) : Set ℚ := Set.Icc g.start (g.start + g.duration)

/-- The pitch-shift offsets of one job in `main`:
`np.concatenate((np.array([0]), np.random.randint(10, 80, 5)))` — the
baseline 0 followed by the random draws, which this model receives as an
explicit list. -/
def shiftOffsets (draws : List ℕ) : List ℕ := 0 :: draws

/-- The augmentation instructions `main` issues for one job: every
offset paired with each of the three segments, in loop order. -/
def augInstructions (draws : List ℕ) : List (ℕ × Segment) :=
  (shiftOffsets draws).flatMap (fun s => segments.map (fun g => (s, g)))

/-- The number of transform invocations `main` performs for a job after
`make_wav` ran the synthesizer.  `make_wav` calls `os.system` and
discards its exit status, and `main` proceeds to the augmentation loop
unconditionally — so this count takes the renderer's exit code as a
parameter it does not consult. -/
def Sample.augmentationsAttempted (renderExitCode : ℤ) (draws : List ℕ) : ℕ :=
  (augInstructions draws).length

/-- C1 evidence.  For every renderer exit code — a failing one included —
the per-job flow attempts all 18 augmentation instructions (for the five
drawn offsets plus baseline), never zero, and no render-status check or
RenderFailure report exists in the source.  This contradicts the claim,
which the spec itself flags as a defect of the present source (§9). -/
theorem render_failure_not_gated :
    ∀ exitCode : ℤ, Sample.augmentationsAttempted exitCode [10, 20, 30, 40, 50] = 18 ∧
      Sample.augmentationsAttempted exitCode [10, 20, 30, 40, 50] ≠ 0 := by
  intro e
  refine ⟨rfl, ?_⟩
  show (18 : ℕ) ≠ 0
  decide

theorem flatMap_segments_length (l : List ℕ) :
    (l.flatMap (fun s => segments.map (fun g => (s, g)))).length = 3 * l.length := by
  induction l with
  | nil => rfl
  | cons x xs ih =>
      simp only [List.flatMap_cons, List.length_append, List.length_map, ih]
      simp [segments]
      ring

/-- C8.  For any drawn values (the model of the five `randint(10, 80)`
samples), the plan is the baseline 0 plus the draws — `n+1` offsets for
`n` draws, each either 0 or inside the configured range — and every
offset is paired with each of the three segments, giving exactly
`3·(n+1)` augmentation instructions. -/
theorem augmentation_plan_spec (draws : List ℕ)
    (hdraws : ∀ d ∈ draws, 10 ≤ d ∧ d < 80) :
    shiftOffsets draws = 0 :: draws ∧
    (shiftOffsets draws).length = draws.length + 1 ∧
    (augInstructions draws).length = 3 * (draws.length + 1) ∧
    (∀ p ∈ augInstructions draws, (p.1 = 0 ∨ (10 ≤ p.1 ∧ p.1 < 80)) ∧ p.2 ∈ segments) ∧
    (∀ s ∈ shiftOffsets draws, ∀ g ∈ segments, (s, g) ∈ augInstructions draws) := by
  refine ⟨rfl, rfl, ?_, ?_, ?_⟩
  · rw [augInstructions, flatMap_segments_length]
    simp [shiftOffsets]
  · intro p hp
    rw [augInstructions, List.mem_flatMap] at hp
    obtain ⟨s, hs, hp2⟩ := hp
    rw [List.mem_map] at hp2
    obtain ⟨g, hg, rfl⟩ := hp2
    refine ⟨?_, hg⟩
    rcases List.mem_cons.mp hs with h0 | hmem
    · left; exact h0
    · right; exact hdraws s hmem
  · intro s hs g hg
    rw [augInstructions, List.mem_flatMap]
    exact ⟨s, hs, List.mem_map_of_mem _ hg⟩

/-- C8 witness: a concrete draw of five values in range yields the six
offsets `[0, 10, 20, 30, 40, 50]` and 18 instructions, containing the
baseline-attack pair. -/
theorem augmentation_plan_spec_witness :
    shiftOffsets [10, 20, 30, 40, 50] = [0, 10, 20, 30, 40, 50] ∧
    (augInstructions [10, 20, 30, 40, 50]).length = 18 ∧
    (0, attackSegment) ∈ augInstructions [10, 20, 30, 40, 50] := by
  have h := augmentation_plan_spec [10, 20, 30, 40, 50] (by decide)
  exact ⟨h.1, h.2.2.1.trans (by decide),
    h.2.2.2.2 0 (by decide) attackSegment (by simp [segments])⟩

/-- C9.  The attack, sustain and decay windows start at 0, 0.33 and 0.66
seconds, each lasts exactly 0.33 s; as half-open spans they are pairwise
disjoint and join to `[0, 0.99)`, and with endpoints included they
jointly cover `[0, 0.99]`. -/
theorem segment_windows_spec :
    attackSegment.start = 0 ∧ sustainSegment.start = 33/100 ∧ decaySegment.start = 66/100 ∧
    (∀ g ∈ segments, g.duration = 33/100) ∧
    attackSegment.window ∪ sustainSegment.window ∪ decaySegment.window =
      Set.Ico (0 : ℚ) (99/100) ∧
    List.Pairwise (fun a b => Disjoint a.window b.window) segments ∧
    attackSegment.windowClosed ∪ sustainSegment.windowClosed ∪ decaySegment.windowClosed =
      Set.Icc (0 : ℚ) (99/100) := by
  refine ⟨rfl, rfl, rfl, ?_, ?_, ?_, ?_⟩
  · intro g hg
    fin_cases hg <;> rfl
  · show Set.Ico (0 : ℚ) (0 + 33/100) ∪ Set.Ico (33/100 : ℚ) (33/100 + 33/100) ∪
      Set.Ico (66/100 : ℚ) (66/100 + 33/100) = Set.Ico (0 : ℚ) (99/100)
    norm_num
  · refine List.Pairwise.cons ?_ (List.Pairwise.cons ?_ (List.pairwise_singleton _ _))
    · intro b hb
      fin_cases hb <;>
        · simp only [Segment.window, attackSegment, sustainSegment, decaySegment]
          rw [Set.Ico_disjoint_Ico]
          norm_num
    · intro b hb
      fin_cases hb
      simp only [Segment.window, sustainSegment, decaySegment]
      rw [Set.Ico_disjoint_Ico]
      norm_num
  · show Set.Icc (0 : ℚ) (0 + 33/100) ∪ Set.Icc (33/100 : ℚ) (33/100 + 33/100) ∪
      Set.Icc (66/100 : ℚ) (66/100 + 33/100) = Set.Icc (0 : ℚ) (99/100)
    norm_num
